import Mathlib

/-!
Shallow embedding of the interpreter pipeline from the repository
(src/lexer.rs, src/ast.rs, src/parser.rs, src/interpreter.rs: the full
variant; src/main.rs: the arithmetic-only variant).

Conventions of the embedding:
* Rust iterator state (current char + rest) is modelled as the list of
  remaining characters, whose head is the current character.
* Fallible operations (Result, plus panics such as unwrap and missing
  HashMap keys) return Option; none models both an Err and a panic.
* Machine integers: u32 values are Nat (with explicit range checks where
  the source checks, as u32::from_str_radix does); i32 arithmetic is
  modelled on unbounded Int with Rust truncating division (Int.div) and
  divide-by-zero mapped to none.  The u32-to-i32 cast in the interpreter
  is modelled exactly (two's complement reinterpretation).
* Loops in the Rust source become fuel-indexed recursion; fuel 0 yields
  none, and any sufficiently large fuel gives the source's behaviour.
-/

namespace Pascal

/-- Tokens of src/lexer.rs (enum Token).  The source's RealDivide is the
token the lexer emits for the slash character. -/
inductive Token where
| IntegerLiteral (value : Nat)
| RealLiteral (value : String)
| Identifier (value : String)
| Program
| Var
| Begin
| End
| Dot
| Colon
| Comma
| Integer
| Real
| Plus
| Minus
| Multiply
| IntegerDivide
| RealDivide
| OpenParen
| CloseParen
| Assign
| EndStatement
| Eof
deriving DecidableEq, Repr

/-- Unary operators of src/ast.rs (enum UnaryOp). -/
inductive UnaryOp where
| Plus
| Minus
deriving DecidableEq, Repr

/-- Binary operators of src/ast.rs (enum BinaryOp). -/
inductive BinaryOp where
| Plus
| Minus
| Multiply
| Divide
deriving DecidableEq, Repr

/-- AST nodes of src/ast.rs (enum AST). -/
inductive AST where
| UnaryOp (token : Token) (op : UnaryOp) (expr : AST)
| BinaryOp (token : Token) (lhs : AST) (op : BinaryOp) (rhs : AST)
| Number (token : Token) (value : Nat)
| Variable (token : Token) (value : String)
| Assign (token : Token) (left : String) (right : AST)
| Compound (children : List AST)
deriving Repr

/-- Smart constructor AST::unary_op; the panic on a non-Plus/Minus token
is modelled as none. -/
def AST.unary_op (token : Token) (expr : AST) : Option AST :=
match token with
| Token.Plus => some (AST.UnaryOp token UnaryOp.Plus expr)
| Token.Minus => some (AST.UnaryOp token UnaryOp.Minus expr)
| _ => none

/-- Smart constructor AST::binary_op; the panic on any other token is
modelled as none.  The source matches a token spelled Divide; the lexer
of lexer.rs produces RealDivide for the slash character, which is the
evident correspondence (parser.rs and ast.rs as committed name that
token Divide). -/
def AST.binary_op (lhs : AST) (token : Token) (rhs : AST) : Option AST :=
match token with
| Token.Plus => some (AST.BinaryOp token lhs BinaryOp.Plus rhs)
| Token.Minus => some (AST.BinaryOp token lhs BinaryOp.Minus rhs)
| Token.Multiply => some (AST.BinaryOp token lhs BinaryOp.Multiply rhs)
| Token.RealDivide => some (AST.BinaryOp token lhs BinaryOp.Divide rhs)
| _ => none

/-- Smart constructor AST::number. -/
def AST.number (token : Token) (value : Nat) : AST :=
AST.Number token value

/-- Rust str::to_lowercase, on the ASCII fragment all inputs of this
development live in: lower-case each character. -/
def str_to_lower (s : String) : String :=
String.mk (s.data.map Char.toLower)

/-- Rust str::to_uppercase, on the same ASCII fragment. -/
def str_to_upper (s : String) : String :=
String.mk (s.data.map Char.toUpper)

/-- Smart constructor AST::variable: the name is lower-cased at
construction time (name.to_lowercase()). -/
def AST.variable_ (token : Token) (name : String) : AST :=
AST.Variable token (str_to_lower name)

/-- Smart constructor AST::assign. -/
def AST.assign (token : Token) (left : String) (right : AST) : AST :=
AST.Assign token left right

/-- Scope of src/interpreter.rs: a HashMap from String to i32, modelled
as an association list where the most recent binding shadows older ones;
all observations go through Scope.get, under which prepending is
observationally the same as HashMap::insert's replacement. -/
abbrev Scope := List (String × Int)

/-- Scope::assign (HashMap::insert). -/
def Scope.assign (s : Scope) (name : String) (value : Int) : Scope :=
(name, value) :: s

/-- Scope::get uses HashMap indexing, which panics when the key is
absent; the panic is modelled by returning none. -/
def Scope.get (s : Scope) (name : String) : Option Int :=
match s with
| [] => none
| (k, v) :: rest => if k = name then some v else Scope.get rest name

/-- The interpreter reads a Number's u32 payload with the cast
(value as i32): a two's complement reinterpretation. -/
def u32_as_i32 (v : Nat) : Int :=
if v % 4294967296 < 2147483648 then ((v % 4294967296 : Nat) : Int)
else ((v % 4294967296 : Nat) : Int) - 4294967296

mutual

/-- The tree-walking evaluator interpret of src/interpreter.rs.  The
mutable scope is threaded explicitly; none models the panics (missing
variable lookup, division by zero). -/
def interpret : AST → Scope → Option (Int × Scope)
| AST.Compound children, scope => interpret_fold 0 children scope
| AST.Assign _ left right, scope =>
  match interpret right scope with
  | none => none
  | some (rhs_value, scope₁) => some (rhs_value, scope₁.assign left rhs_value)
| AST.UnaryOp _ op e, scope =>
  match interpret e scope with
  | none => none
  | some (expr_value, scope₁) =>
    match op with
    | UnaryOp.Plus => some (expr_value, scope₁)
    | UnaryOp.Minus => some (-expr_value, scope₁)
| AST.BinaryOp _ lhs op rhs, scope =>
  match interpret lhs scope with
  | none => none
  | some (lhs_value, scope₁) =>
    match interpret rhs scope₁ with
    | none => none
    | some (rhs_value, scope₂) =>
      match op with
      | BinaryOp.Plus => some (lhs_value + rhs_value, scope₂)
      | BinaryOp.Minus => some (lhs_value - rhs_value, scope₂)
      | BinaryOp.Multiply => some (lhs_value * rhs_value, scope₂)
      | BinaryOp.Divide =>
        if rhs_value = 0 then none else some (Int.tdiv lhs_value rhs_value, scope₂)
| AST.Number _ value, scope => some (u32_as_i32 value, scope)
| AST.Variable _ name, scope =>
  match scope.get name with
  | none => none
  | some v => some (v, scope)

/-- The Compound case of interpret is children.iter().fold(0, ...): the
accumulator starts at 0 and is replaced by each statement's value, so an
empty list yields 0 and otherwise the last statement's value wins. -/
def interpret_fold : Int → List AST → Scope → Option (Int × Scope)
| acc, [], scope => some (acc, scope)
| _, c :: cs, scope =>
  match interpret c scope with
  | none => none
  | some (v, scope₁) => interpret_fold v cs scope₁

end

/-!
Lexer of src/lexer.rs.  The Rust struct holds a char iterator plus one
character of lookahead (current); this pair is modelled as the list of
remaining characters whose head is current (None corresponds to the
empty list).  Rust's Unicode-aware character classes are modelled with
Lean's ASCII classes; every input in this development is ASCII.
-/

/-- Lexer::skip_whitespace: advance while the current character is
whitespace. -/
def skip_whitespace : List Char → List Char
| [] => []
| c :: cs => if c.isWhitespace then skip_whitespace cs else c :: cs

/-- Lexer::skip_comment: advance while the current character is not a
closing brace.  Note that the loop stops at the closing brace without
consuming it (or at end of input). -/
def skip_comment : List Char → List Char
| [] => []
| c :: cs => if c = '\x7d' then c :: cs else skip_comment cs

/-- The digit-collecting loops inside Lexer::number: push characters
while the current character is an ASCII digit. -/
def take_digits : List Char → List Char × List Char
| [] => ([], [])
| c :: cs =>
  if c.isDigit then
    let (ds, rest) := take_digits cs
    (c :: ds, rest)
  else ([], c :: cs)

/-- Decimal value of a digit string, as accumulated by a base-10 string
to integer conversion. -/
def digits_val (ds : List Char) : Nat :=
ds.foldl (fun a c => a * 10 + (c.toNat - 48)) 0

/-- Semantics of u32::from_str_radix(value, 10): the decimal value of a
nonempty all-digit string when it fits in 32 unsigned bits, an error
(none) on an empty or non-digit string and on overflow. -/
def from_str_radix_10 (value : List Char) : Option Nat :=
if value = [] then none
else if value.all Char.isDigit then
  if digits_val value < 4294967296 then some (digits_val value) else none
else none

/-- Lexer::number: collect the consecutive digits; if a dot follows,
collect a fractional part and keep the literal as source text in a
RealLiteral; otherwise convert with u32::from_str_radix(..).unwrap(),
whose panic on overflow is modelled as none. -/
def number (cs : List Char) : Option (Token × List Char) :=
let (intpart, rest) := take_digits cs
match rest with
| '.' :: rest₁ =>
  let (fracpart, rest₂) := take_digits rest₁
  some (Token.RealLiteral (String.mk (intpart ++ '.' :: fracpart)), rest₂)
| _ =>
  match from_str_radix_10 intpart with
  | none => none
  | some i => some (Token.IntegerLiteral i, rest)

/-- The alphanumeric-collecting loop inside Lexer::identifier: push
characters while the current character is alphanumeric (note: not
underscore). -/
def take_alphanum : List Char → List Char × List Char
| [] => ([], [])
| c :: cs =>
  if c.isAlphanum then
    let (ds, rest) := take_alphanum cs
    (c :: ds, rest)
  else ([], c :: cs)

/-- Lexer::identifier: one leading underscore-or-letter, then the
alphanumeric continuation. -/
def identifier (cs : List Char) : List Char × List Char :=
match cs with
| [] => ([], [])
| c :: rest =>
  if c = '_' ∨ c.isAlpha then
    let (tail_, rest₂) := take_alphanum rest
    (c :: tail_, rest₂)
  else ([], c :: rest)

/-- The lazily initialised KEYWORD_TOKENS table. -/
def keyword_tokens (s : String) : Option Token :=
if s = "PROGRAM" then some Token.Program
else if s = "VAR" then some Token.Var
else if s = "BEGIN" then some Token.Begin
else if s = "END" then some Token.End
else if s = "INTEGER" then some Token.Integer
else if s = "REAL" then some Token.Real
else if s = "DIV" then some Token.IntegerDivide
else none

/-- Lexer::next_token.  The fuel only feeds the self-call in the
open-brace arm; any fuel of at least two reproduces the source, whose
recursion depth through that arm never exceeds two.  A lexical error
(the invalid-character arm, or a panic inside number) is none.  Note
that there is no arm for a closing brace. -/
def next_token : Nat → List Char → Option (Token × List Char)
| 0, _ => none
| fuel + 1, input =>
  match skip_whitespace input with
  | [] => some (Token.Eof, [])
  | c :: rest =>
    if c = '\x7b' then next_token fuel (skip_comment rest)
    else if c = '.' then some (Token.Dot, rest)
    else if c = ',' then some (Token.Comma, rest)
    else if c = '+' then some (Token.Plus, rest)
    else if c = '-' then some (Token.Minus, rest)
    else if c = '*' then some (Token.Multiply, rest)
    else if c = '/' then some (Token.RealDivide, rest)
    else if c = '(' then some (Token.OpenParen, rest)
    else if c = ')' then some (Token.CloseParen, rest)
    else if c = ';' then some (Token.EndStatement, rest)
    else if c = ':' then
      match rest with
      | '=' :: rest₂ => some (Token.Assign, rest₂)
      | _ => some (Token.Colon, rest)
    else if c.isDigit then number (c :: rest)
    else if c = '_' ∨ c.isAlpha then
      let (id, rest₂) := identifier (c :: rest)
      match keyword_tokens (str_to_upper (String.mk id)) with
      | some token => some (token, rest₂)
      | none => some (Token.Identifier (String.mk id), rest₂)
    else none

/-- Draining the lexer the way Parser does: one token per advance until
Eof.  The resulting token list excludes the final Eof; the parser's
cursor below reads Eof from an exhausted list, matching the source
lexer, which keeps answering Eof once the input is consumed. -/
def tokenize : Nat → List Char → Option (List Token)
| 0, _ => none
| fuel + 1, cs =>
  match next_token fuel cs with
  | none => none
  | some (Token.Eof, _) => some []
  | some (t, rest) =>
    match tokenize fuel rest with
    | none => none
    | some ts => some (t :: ts)

/-!
Parser of src/parser.rs.  The parser state (current_token plus the
lexer) is modelled as the list of not yet consumed tokens; the head is
current_token, and an exhausted list reads as Eof, exactly as the
source lexer keeps returning Eof.
-/

/-- The current_token of the parser state. -/
def cur : List Token → Token
| [] => Token.Eof
| t :: _ => t

/-- Parser::advance's effect on the state (the source function also
returns the consumed token, which call sites below take as cur). -/
def adv : List Token → List Token
| [] => []
| _ :: ts => ts

/-- Parser::eat: consume the current token only if it structurally
equals the expected token, else a token-mismatch error. -/
def eat (token : Token) (ts : List Token) : Option (List Token) :=
if cur ts = token then some (adv ts) else none

mutual

/-- Parser::program. -/
def program : Nat → List Token → Option (AST × List Token)
| 0, _ => none
| fuel + 1, ts =>
  match compound_statement fuel ts with
  | none => none
  | some (node, ts₁) =>
    match eat Token.Dot ts₁ with
    | none => none
    | some ts₂ => some (node, ts₂)

/-- Parser::compound_statement. -/
def compound_statement : Nat → List Token → Option (AST × List Token)
| 0, _ => none
| fuel + 1, ts =>
  match eat Token.Begin ts with
  | none => none
  | some ts₁ =>
    match statement_list fuel ts₁ with
    | none => none
    | some (statements, ts₂) =>
      match eat Token.End ts₂ with
      | none => none
      | some ts₃ => some (AST.Compound statements, ts₃)

/-- Parser::statement_list: a loop that consumes any EndStatement token,
stops before End, and otherwise parses a statement.  Note semicolons are
skipped wherever they occur and are not required between statements. -/
def statement_list : Nat → List Token → Option (List AST × List Token)
| 0, _ => none
| fuel + 1, ts =>
  match cur ts with
  | Token.EndStatement => statement_list fuel (adv ts)
  | Token.End => some ([], ts)
  | _ =>
    match statement fuel ts with
    | none => none
    | some (node, ts₁) =>
      match statement_list fuel ts₁ with
      | none => none
      | some (nodes, ts₂) => some (node :: nodes, ts₂)

/-- Parser::statement: a nested compound block, an assignment, or the
expected-a-statement error. -/
def statement : Nat → List Token → Option (AST × List Token)
| 0, _ => none
| fuel + 1, ts =>
  match cur ts with
  | Token.Begin => compound_statement fuel ts
  | Token.Identifier _ => assignment_statement fuel ts
  | _ => none

/-- Parser::assignment_statement: the LHS name is extracted from the
Variable node the variable rule built (hence already lower-cased). -/
def assignment_statement : Nat → List Token → Option (AST × List Token)
| 0, _ => none
| fuel + 1, ts =>
  match variable_ fuel ts with
  | none => none
  | some (vnode, ts₁) =>
    match vnode with
    | AST.Variable _ value =>
      let token := cur ts₁
      match eat Token.Assign ts₁ with
      | none => none
      | some ts₂ =>
        match expr fuel ts₂ with
        | none => none
        | some (right, ts₃) => some (AST.assign token value right, ts₃)
    | _ => none

/-- Parser::variable (named variable in the source).  The source
advances first and then attaches the new current_token to the node, so
the provenance token is the one after the identifier; the name is the
identifier's spelling, lower-cased by AST::variable. -/
def variable_ : Nat → List Token → Option (AST × List Token)
| 0, _ => none
| _ + 1, ts =>
  match cur ts with
  | Token.Identifier value =>
    let ts₁ := adv ts
    some (AST.variable_ (cur ts₁) value, ts₁)
  | _ => none

/-- Parser::factor.  In the unary arm the operand is parsed by expr, not
by factor: a unary operator wraps the whole following expression.  The
integer arm is written Token::Integer { value } in parser.rs; the
literal token the lexer produces is IntegerLiteral, the evident
correspondence. -/
def factor : Nat → List Token → Option (AST × List Token)
| 0, _ => none
| fuel + 1, ts =>
  match cur ts with
  | Token.Plus | Token.Minus =>
    let token := cur ts
    match expr fuel (adv ts) with
    | none => none
    | some (e, ts₂) =>
      match AST.unary_op token e with
      | none => none
      | some node => some (node, ts₂)
  | Token.OpenParen =>
    match expr fuel (adv ts) with
    | none => none
    | some (result, ts₂) =>
      match eat Token.CloseParen ts₂ with
      | none => none
      | some ts₃ => some (result, ts₃)
  | Token.IntegerLiteral value =>
    let token := cur ts
    some (AST.number token value, adv ts)
  | _ => variable_ fuel ts

/-- Parser::term: a factor followed by the multiplicative loop. -/
def term : Nat → List Token → Option (AST × List Token)
| 0, _ => none
| fuel + 1, ts =>
  match factor fuel ts with
  | none => none
  | some (node, ts₁) => term_loop fuel node ts₁

/-- The loop inside Parser::term, folding the node leftwards through
star and slash operators (the latter spelled Token::Divide in
parser.rs; the lexer's slash token is RealDivide). -/
def term_loop : Nat → AST → List Token → Option (AST × List Token)
| 0, _, _ => none
| fuel + 1, node, ts =>
  match cur ts with
  | Token.Multiply | Token.RealDivide =>
    let token := cur ts
    match factor fuel (adv ts) with
    | none => none
    | some (rhs, ts₁) =>
      match AST.binary_op node token rhs with
      | none => none
      | some node₁ => term_loop fuel node₁ ts₁
  | _ => some (node, ts)

/-- Parser::expr: a term followed by the additive loop. -/
def expr : Nat → List Token → Option (AST × List Token)
| 0, _ => none
| fuel + 1, ts =>
  match term fuel ts with
  | none => none
  | some (node, ts₁) => expr_loop fuel node ts₁

/-- The loop inside Parser::expr, folding the node leftwards through
plus and minus operators. -/
def expr_loop : Nat → AST → List Token → Option (AST × List Token)
| 0, _, _ => none
| fuel + 1, node, ts =>
  match cur ts with
  | Token.Plus | Token.Minus =>
    let token := cur ts
    match term fuel (adv ts) with
    | none => none
    | some (rhs, ts₁) =>
      match AST.binary_op node token rhs with
      | none => none
      | some node₁ => expr_loop fuel node₁ ts₁
  | _ => some (node, ts)

/-- Parser::parse: a whole program followed by Eof. -/
def parse : Nat → List Token → Option (AST × List Token)
| 0, _ => none
| fuel + 1, ts =>
  match program fuel ts with
  | none => none
  | some (node, ts₁) =>
    match eat Token.Eof ts₁ with
    | none => none
    | some ts₂ => some (node, ts₂)

end

/-- One lexer call on a string, keeping only the token (fuel 16 is far
beyond the at most two calls the source can chain). -/
def next_token_str (s : String) : Option Token :=
(next_token 16 s.data).map Prod.fst

/-- Full tokenization of a string (fuel 64 covers every input in this
development). -/
def tokens_str (s : String) : Option (List Token) :=
tokenize 64 s.data

/-- Lexing then parsing of a string, keeping the AST. -/
def parse_str (s : String) : Option AST :=
match tokens_str s with
| none => none
| some ts => (parse 64 ts).map Prod.fst

/-- The full pipeline over one string: Lexer, Parser::parse, interpret
over a fresh empty Scope. -/
def pipeline (s : String) : Option (Int × Scope) :=
match parse_str s with
| none => none
| some ast => interpret ast []

end Pascal

namespace Calc

/-!
The arithmetic-only variant of src/main.rs: expression tokens only, a
parser whose parse is expr, and a scopeless evaluator.  This is the
variant whose REPL evaluates bare expressions such as 2 + 3 * 4.
-/

/-- Tokens of the main.rs enum Token. -/
inductive Token where
| Integer (value : Nat)
| Plus
| Minus
| Multiply
| Divide
| OpenParen
| CloseParen
| Eof
deriving DecidableEq, Repr

/-- Unary operators of main.rs. -/
inductive UnaryOp where
| Plus
| Minus
deriving DecidableEq, Repr

/-- Binary operators of main.rs. -/
inductive BinaryOp where
| Plus
| Minus
| Multiply
| Divide
deriving DecidableEq, Repr

/-- AST of main.rs: expressions only. -/
inductive AST where
| UnaryOp (token : Token) (op : UnaryOp) (expr : AST)
| BinaryOp (token : Token) (lhs : AST) (op : BinaryOp) (rhs : AST)
| Number (token : Token) (value : Nat)
deriving DecidableEq, Repr

/-- Smart constructor AST::unary_op of main.rs; panic modelled as
none. -/
def AST.unary_op (token : Token) (expr : AST) : Option AST :=
match token with
| Token.Plus => some (AST.UnaryOp token UnaryOp.Plus expr)
| Token.Minus => some (AST.UnaryOp token UnaryOp.Minus expr)
| _ => none

/-- Smart constructor AST::binary_op of main.rs; panic modelled as
none. -/
def AST.binary_op (lhs : AST) (token : Token) (rhs : AST) : Option AST :=
match token with
| Token.Plus => some (AST.BinaryOp token lhs BinaryOp.Plus rhs)
| Token.Minus => some (AST.BinaryOp token lhs BinaryOp.Minus rhs)
| Token.Multiply => some (AST.BinaryOp token lhs BinaryOp.Multiply rhs)
| Token.Divide => some (AST.BinaryOp token lhs BinaryOp.Divide rhs)
| _ => none

/-- Smart constructor AST::number of main.rs. -/
def AST.number (token : Token) (value : Nat) : AST :=
AST.Number token value

/-- Lexer::integer of main.rs: the naive accumulation
i = i * 10 + digit over the consecutive digits, on u32 (modelled with
the unsigned 32-bit wraparound the spec records for this loop). -/
def integer : Nat → List Char → Nat × List Char
| i, [] => (i, [])
| i, c :: cs =>
  if c.isDigit then integer ((i * 10 + (c.toNat - 48)) % 4294967296) cs
  else (i, c :: cs)

/-- Lexer::next_token of main.rs (no comments, no identifiers); the
invalid-character arm is none. -/
def next_token (cs : List Char) : Option (Token × List Char) :=
match Pascal.skip_whitespace cs with
| [] => some (Token.Eof, [])
| c :: rest =>
  if c = '+' then some (Token.Plus, rest)
  else if c = '-' then some (Token.Minus, rest)
  else if c = '*' then some (Token.Multiply, rest)
  else if c = '/' then some (Token.Divide, rest)
  else if c = '(' then some (Token.OpenParen, rest)
  else if c = ')' then some (Token.CloseParen, rest)
  else if c.isDigit then
    let (i, rest₂) := integer 0 (c :: rest)
    some (Token.Integer i, rest₂)
  else none

/-- Draining the main.rs lexer, as for the full variant. -/
def tokenize : Nat → List Char → Option (List Token)
| 0, _ => none
| fuel + 1, cs =>
  match next_token cs with
  | none => none
  | some (Token.Eof, _) => some []
  | some (t, rest) =>
    match tokenize fuel rest with
    | none => none
    | some ts => some (t :: ts)

/-- The current_token of the main.rs parser state. -/
def cur : List Token → Token
| [] => Token.Eof
| t :: _ => t

/-- Parser::advance of main.rs. -/
def adv : List Token → List Token
| [] => []
| _ :: ts => ts

/-- Parser::eat of main.rs. -/
def eat (token : Token) (ts : List Token) : Option (List Token) :=
if cur ts = token then some (adv ts) else none

mutual

/-- Parser::factor of main.rs.  The unary arm parses its operand with
expr; the integer arm advances first and then attaches the new
current_token to the Number node (a provenance slip in the source, kept
faithfully). -/
def factor : Nat → List Token → Option (AST × List Token)
| 0, _ => none
| fuel + 1, ts =>
  match cur ts with
  | Token.Plus | Token.Minus =>
    let token := cur ts
    match expr fuel (adv ts) with
    | none => none
    | some (e, ts₂) =>
      match AST.unary_op token e with
      | none => none
      | some node => some (node, ts₂)
  | Token.OpenParen =>
    match expr fuel (adv ts) with
    | none => none
    | some (result, ts₂) =>
      match eat Token.CloseParen ts₂ with
      | none => none
      | some ts₃ => some (result, ts₃)
  | Token.Integer value =>
    let ts₁ := adv ts
    some (AST.number (cur ts₁) value, ts₁)
  | _ => none

/-- Parser::term of main.rs. -/
def term : Nat → List Token → Option (AST × List Token)
| 0, _ => none
| fuel + 1, ts =>
  match factor fuel ts with
  | none => none
  | some (node, ts₁) => term_loop fuel node ts₁

/-- The loop inside Parser::term of main.rs. -/
def term_loop : Nat → AST → List Token → Option (AST × List Token)
| 0, _, _ => none
| fuel + 1, node, ts =>
  match cur ts with
  | Token.Multiply | Token.Divide =>
    let op := cur ts
    match factor fuel (adv ts) with
    | none => none
    | some (rhs, ts₁) =>
      match AST.binary_op node op rhs with
      | none => none
      | some node₁ => term_loop fuel node₁ ts₁
  | _ => some (node, ts)

/-- Parser::expr of main.rs. -/
def expr : Nat → List Token → Option (AST × List Token)
| 0, _ => none
| fuel + 1, ts =>
  match term fuel ts with
  | none => none
  | some (node, ts₁) => expr_loop fuel node ts₁

/-- The loop inside Parser::expr of main.rs. -/
def expr_loop : Nat → AST → List Token → Option (AST × List Token)
| 0, _, _ => none
| fuel + 1, node, ts =>
  match cur ts with
  | Token.Plus | Token.Minus =>
    let op := cur ts
    match term fuel (adv ts) with
    | none => none
    | some (rhs, ts₁) =>
      match AST.binary_op node op rhs with
      | none => none
      | some node₁ => expr_loop fuel node₁ ts₁
  | _ => some (node, ts)

end

/-- Parser::parse of main.rs is just expr (no Eof check). -/
def parse (fuel : Nat) (ts : List Token) : Option (AST × List Token) :=
expr fuel ts

/-- The interpret of main.rs: scopeless evaluation of expression trees;
division by zero is the panic none. -/
def interpret : AST → Option Int
| AST.UnaryOp _ op e =>
  match interpret e with
  | none => none
  | some expr_value =>
    match op with
    | UnaryOp.Plus => some expr_value
    | UnaryOp.Minus => some (-expr_value)
| AST.BinaryOp _ lhs op rhs =>
  match interpret lhs with
  | none => none
  | some lhs_value =>
    match interpret rhs with
    | none => none
    | some rhs_value =>
      match op with
      | BinaryOp.Plus => some (lhs_value + rhs_value)
      | BinaryOp.Minus => some (lhs_value - rhs_value)
      | BinaryOp.Multiply => some (lhs_value * rhs_value)
      | BinaryOp.Divide =>
        if rhs_value = 0 then none else some (Int.tdiv lhs_value rhs_value)
| AST.Number _ value => some (Pascal.u32_as_i32 value)

/-- Lexing then parsing one expression string with the main.rs
pipeline. -/
def parse_str (s : String) : Option AST :=
match tokenize 64 s.data with
| none => none
| some ts => (parse 64 ts).map Prod.fst

/-- Lexing, parsing and evaluating one expression string with the
main.rs pipeline. -/
def eval_str (s : String) : Option Int :=
match parse_str s with
| none => none
| some ast => interpret ast

end Calc

/-!
Definitions supporting the statements of the claims: the lower-cased
name invariant of parsed ASTs, the set of ASCII digit characters, and
the concrete inputs named by the claims.
-/

/-- A string that is the result of to_lowercase applied to some
spelling. -/
def IsLowered (n : String) : Prop :=
∃ s : String, n = Pascal.str_to_lower s

/-- Every Variable and Assign node in the tree carries a lower-cased
name. -/
inductive LowerNames : Pascal.AST → Prop where
| unary : ∀ t o e, LowerNames e → LowerNames (Pascal.AST.UnaryOp t o e)
| binary : ∀ t l o r, LowerNames l → LowerNames r →
    LowerNames (Pascal.AST.BinaryOp t l o r)
| num : ∀ t v, LowerNames (Pascal.AST.Number t v)
| var : ∀ t n, IsLowered n → LowerNames (Pascal.AST.Variable t n)
| assign : ∀ t n r, IsLowered n → LowerNames r →
    LowerNames (Pascal.AST.Assign t n r)
| compound : ∀ cs, (∀ c ∈ cs, LowerNames c) →
    LowerNames (Pascal.AST.Compound cs)

/-- The ten ASCII digit characters. -/
def digit_chars : List Char :=
['0', '1', '2', '3', '4', '5', '6', '7', '8', '9']

/-- The program of claim C1. -/
def c1_program : String := "BEGIN x := 2; y := x * 10 + 5; END."

/-- The three expressions of claim C2 and the expression separating the
source's unary parse from a tighter-than-binary unary parse. -/
def c2_ex1 : String := "2 + 3 * 4"

/-- Second C2 expression. -/
def c2_ex2 : String := "(2 + 3) * 4"

/-- Third C2 expression. -/
def c2_ex3 : String := "10 - 2 - 3"

/-- The expression on which the unary reading matters. -/
def c2_unary_input : String := "-2+3"

/-- A terminated block comment followed by a Dot token (claim C3). -/
def c3_input : List Char := ['\x7b', 'c', '\x7d', ' ', '.']

/-- An unterminated block comment (claim C3). -/
def c3_unterminated : List Char := ['\x7b', 'c']

/-- Two assignments with no separating semicolon (claim C5). -/
def c5_nosep : String := "BEGIN x := 1 y := 2 END."

/-- The same two assignments, semicolon-separated (claim C5). -/
def c5_sep : String := "BEGIN x := 1; y := 2 END."

/-- A block of bare semicolons (claim C5). -/
def c5_empties : String := "BEGIN ; ; END."

/-- A block whose body is not a statement (claim C5). -/
def c5_bad : String := "BEGIN 1 END."

/-- The AST both C5 programs parse to. -/
def c5_ast : Pascal.AST :=
Pascal.AST.Compound
  [Pascal.AST.Assign Pascal.Token.Assign ("x")
     (Pascal.AST.Number (Pascal.Token.IntegerLiteral 1) 1),
   Pascal.AST.Assign Pascal.Token.Assign ("y")
     (Pascal.AST.Number (Pascal.Token.IntegerLiteral 2) 2)]

/-- The smallest digit string exceeding the unsigned 32-bit range
(claim C6): its value is 2 to the 32nd, whose wraparound image is 0. -/
def c6_overflow : String := "4294967296"

/-- The identifier with an interior underscore (claim C7). -/
def c7_input : String := "foo_bar"

/-- The alphanumeric identifier (claim C7). -/
def c7_alnum : String := "foo42bar"

/-- A mixed-case keyword spelling (claim C7). -/
def c7_mixed : String := "BeGiN"

/-- The program of claim C8: a mixed-case spelling assigned, then read
back through another spelling. -/
def c8_program : String := "BEGIN A := 1; b := A END."

/-!
Theorems settling the claims, one per claim, with helper lemmas shared
between them.
-/

/-- C1: for the input BEGIN x := 2; y := x * 10 + 5; END., the full
pipeline (Lexer, Parser::parse, interpret over a fresh empty Scope)
succeeds; the final scope maps x to 2 and y to 25, and the value
interpret returns is 25, the stored value of y (the last statement). -/
theorem spec_c1 :
    (Pascal.pipeline c1_program).map
        (fun r => (r.1, r.2.get ("x"), r.2.get ("y")))
        = some (25, some 2, some 25)
      ∧ (Pascal.pipeline c1_program).map (fun r => some r.1)
        = (Pascal.pipeline c1_program).map (fun r => r.2.get ("y")) :=
⟨rfl, rfl⟩

/-- C2, counterexample: the unary minus of the source does not apply
only to the immediately following factor; parsing -2+3 makes the unary
node wrap the whole sum 2+3 (the operand of the UnaryOp is the BinaryOp
node), and evaluation yields -5, not the 1 a tighter-than-binary unary
would produce. -/
theorem spec_c2_counterexample :
    Calc.parse_str c2_unary_input
        = some (Calc.AST.UnaryOp Calc.Token.Minus Calc.UnaryOp.Minus
            (Calc.AST.BinaryOp Calc.Token.Plus
              (Calc.AST.Number Calc.Token.Plus 2)
              Calc.BinaryOp.Plus
              (Calc.AST.Number Calc.Token.Eof 3)))
      ∧ Calc.eval_str c2_unary_input = some (-5)
      ∧ (-5 : Int) ≠ 1 :=
⟨rfl, rfl, by decide⟩

/-- C2, amended: binary operators follow standard precedence (star and
slash over plus and minus) and are left-associative, while a unary
plus/minus wraps the entire expression that follows it (the factor rule
recurses into expr), rather than only the next factor: 2 + 3 * 4
evaluates to 14, (2 + 3) * 4 to 20, 10 - 2 - 3 to 5, and -2+3 to -5. -/
theorem spec_c2 :
    Calc.eval_str c2_ex1 = some 14
      ∧ Calc.eval_str c2_ex2 = some 20
      ∧ Calc.eval_str c2_ex3 = some 5
      ∧ Calc.eval_str c2_unary_input = some (-5) :=
⟨rfl, rfl, rfl, rfl⟩

/-- C3: at the failing input consisting of a terminated comment and a
Dot token, next_token is a lexical error rather than the Dot token the
claim promises: skip_comment stops at the closing brace without
consuming it and next_token has no arm for a closing brace, so every
terminated comment ends in the invalid-character arm; only the
unterminated comment of the second conjunct reaches Eof. -/
theorem spec_c3 :
    Pascal.next_token 16 c3_input = none
      ∧ Pascal.next_token 16 c3_unterminated = some (Pascal.Token.Eof, []) :=
⟨rfl, rfl⟩

/-- C4: evaluating a Variable node whose name is absent from the scope
is a hard lookup failure: interpret returns none (the modelled panic of
HashMap indexing), not a default value, and no scope is produced. -/
theorem spec_c4 (t : Pascal.Token) (n : String) (s : Pascal.Scope)
    (h : s.get n = none) :
    Pascal.interpret (Pascal.AST.Variable t n) s = none := by
  simp [Pascal.interpret, h]

/-- Witness for C4 at the unassigned name z in the empty scope. -/
theorem spec_c4_witness :
    Pascal.Scope.get [] ("z") = none
      ∧ Pascal.interpret (Pascal.AST.Variable Pascal.Token.Eof ("z")) [] = none :=
⟨rfl, spec_c4 Pascal.Token.Eof ("z") [] rfl⟩

/-- C5, counterexample: two consecutive statements with no separating
semicolon are accepted, not a syntax error: the statement_list loop
only skips semicolons and stops at END, so it parses the second
assignment directly after the first. -/
theorem spec_c5_counterexample :
    Pascal.parse_str c5_nosep = some c5_ast
      ∧ some c5_ast ≠ (none : Option Pascal.AST) :=
⟨rfl, by simp⟩

/-- C5, amended: Parser::parse accepts BEGIN, then any interleaving of
statements (nested blocks or assignments) and semicolons, then END and
a dot: semicolons are consumed as skippable separators and are not
required between statements, so the separated and unseparated programs
parse to the same AST, a body of bare semicolons parses to an empty
Compound, and a non-statement in the body is still a syntax error. -/
theorem spec_c5 :
    Pascal.parse_str c5_sep = some c5_ast
      ∧ Pascal.parse_str c5_nosep = some c5_ast
      ∧ Pascal.parse_str c5_empties = some (Pascal.AST.Compound [])
      ∧ Pascal.parse_str c5_bad = none :=
⟨rfl, rfl, rfl, rfl⟩

/-- C6, counterexample: on the digit string 4294967296 the lexer does
fail: u32::from_str_radix detects the overflow and the unwrap panics
(none), instead of returning the wraparound value 0 the claim
predicts. -/
theorem spec_c6_counterexample :
    Pascal.next_token_str c6_overflow = none
      ∧ (none : Option Pascal.Token) ≠ some (Pascal.Token.IntegerLiteral 0) :=
⟨rfl, by decide⟩

/-- Character facts used when lexing digit strings: a digit is not
whitespace and is none of the punctuation characters the next_token
dispatch tests first. -/
theorem digit_char_facts : ∀ c ∈ digit_chars,
    c.isDigit = true ∧ c.isWhitespace = false ∧ c ≠ '\x7b' ∧ c ≠ '.' ∧ c ≠ ','
      ∧ c ≠ '+' ∧ c ≠ '-' ∧ c ≠ '*' ∧ c ≠ '/' ∧ c ≠ '(' ∧ c ≠ ')' ∧ c ≠ ';'
      ∧ c ≠ ':' := by
  decide

/-- skip_whitespace does not move past a non-whitespace head. -/
theorem skip_whitespace_cons (c : Char) (cs : List Char)
    (h : c.isWhitespace = false) :
    Pascal.skip_whitespace (c :: cs) = c :: cs := by
  simp [Pascal.skip_whitespace, h]

/-- take_digits consumes an all-digit input completely. -/
theorem take_digits_all (ds : List Char) (h : ∀ c ∈ ds, c.isDigit = true) :
    Pascal.take_digits ds = (ds, []) := by
  induction ds with
  | nil => rfl
  | cons c cs ih =>
    simp [Pascal.take_digits, h c (List.mem_cons_self c cs),
      ih (fun x hx => h x (List.mem_cons_of_mem c hx))]

/-- C6, amended: an integer literal is accumulated as a digit string
and converted with the overflow-checked u32::from_str_radix: for every
digit string whose decimal value fits in unsigned 32 bits, next_token
returns an IntegerLiteral carrying exactly that value, while a digit
string whose value exceeds the range makes next_token fail (the unwrap
panic), rather than wrapping around. -/
theorem spec_c6 (fuel : Nat) (ds : List Char) (h₁ : ds ≠ [])
    (h₂ : ∀ c ∈ ds, c ∈ digit_chars) :
    Pascal.next_token (fuel + 1) ds =
      if Pascal.digits_val ds < 4294967296
      then some (Pascal.Token.IntegerLiteral (Pascal.digits_val ds), [])
      else none := by
  match ds, h₁ with
  | c :: cs, _ =>
    have hd : ∀ x ∈ c :: cs, x.isDigit = true :=
      fun x hx => (digit_char_facts x (h₂ x hx)).1
    obtain ⟨hdig, hws, hbrace, hdot, hcomma, hplus, hminus, hstar, hslash,
      hop, hcp, hsemi, hcolon⟩ := digit_char_facts c (h₂ c (List.mem_cons_self c cs))
    have hall : (c :: cs).all Char.isDigit = true := List.all_eq_true.mpr hd
    have htd := take_digits_all (c :: cs) hd
    by_cases hv : Pascal.digits_val (c :: cs) < 4294967296 <;>
      simp [Pascal.next_token, skip_whitespace_cons c cs hws, hbrace, hdot,
        hcomma, hplus, hminus, hstar, hslash, hop, hcp, hsemi, hcolon, hdig,
        Pascal.number, htd, Pascal.from_str_radix_10, hall, hv]

/-- Witness for C6 at the digit string 123. -/
theorem spec_c6_witness :
    (['1', '2', '3'] : List Char) ≠ []
      ∧ Pascal.next_token 16 ['1', '2', '3'] =
          (if Pascal.digits_val ['1', '2', '3'] < 4294967296
           then some (Pascal.Token.IntegerLiteral (Pascal.digits_val ['1', '2', '3']), [])
           else none) :=
⟨by decide, spec_c6 15 ['1', '2', '3'] (by decide) (by decide)⟩

/-- C7, counterexample: lexing foo_bar stops at the underscore, because
the identifier continuation loop accepts alphanumerics only; the first
token is Identifier foo, not the single Identifier foo_bar the claim
states. -/
theorem spec_c7_counterexample :
    Pascal.next_token_str c7_input = some (Pascal.Token.Identifier ("foo"))
      ∧ Pascal.Token.Identifier ("foo") ≠ Pascal.Token.Identifier ("foo_bar") :=
⟨rfl, by decide⟩

/-- C7, amended: on a letter or underscore, next_token accumulates the
immediately following alphanumeric characters (an underscore is
accepted only as the first character) into one raw identifier with
spelling preserved, emitting a keyword token exactly when the
uppercased string is in the keyword table: foo42bar is the single
Identifier foo42bar, foo_bar lexes as Identifier foo followed by
Identifier _bar, and BeGiN is the Begin keyword. -/
theorem spec_c7 :
    Pascal.tokens_str c7_input
        = some [Pascal.Token.Identifier ("foo"), Pascal.Token.Identifier ("_bar")]
      ∧ Pascal.next_token_str c7_alnum = some (Pascal.Token.Identifier ("foo42bar"))
      ∧ Pascal.next_token_str c7_mixed = some Pascal.Token.Begin :=
⟨rfl, rfl, rfl⟩

/-- AST::unary_op preserves the lower-cased-names invariant. -/
theorem unary_op_lower (t : Pascal.Token) (e node : Pascal.AST)
    (h : Pascal.AST.unary_op t e = some node) (he : LowerNames e) :
    LowerNames node := by
  cases t <;> simp only [Pascal.AST.unary_op, Option.some.injEq] at h <;>
    first
    | exact absurd h (by simp)
    | exact h ▸ LowerNames.unary _ _ _ he

/-- AST::binary_op preserves the lower-cased-names invariant. -/
theorem binary_op_lower (l : Pascal.AST) (t : Pascal.Token) (r node : Pascal.AST)
    (h : Pascal.AST.binary_op l t r = some node)
    (hl : LowerNames l) (hr : LowerNames r) :
    LowerNames node := by
  cases t <;> simp only [Pascal.AST.binary_op, Option.some.injEq] at h <;>
    first
    | exact absurd h (by simp)
    | exact h ▸ LowerNames.binary _ _ _ _ hl hr

/-- Joint parser invariant: whatever any grammar rule returns at any
fuel satisfies LowerNames; every Variable and Assign node is built by
AST::variable (which lower-cases) respectively from the name extracted
out of such a Variable node.  The two loop rules additionally assume
the invariant of the accumulated left operand. -/
theorem parser_lower_names : ∀ fuel : Nat,
    (∀ ts r, Pascal.variable_ fuel ts = some r → LowerNames r.1)
  ∧ (∀ ts r, Pascal.factor fuel ts = some r → LowerNames r.1)
  ∧ (∀ node ts r, Pascal.term_loop fuel node ts = some r → LowerNames node → LowerNames r.1)
  ∧ (∀ ts r, Pascal.term fuel ts = some r → LowerNames r.1)
  ∧ (∀ node ts r, Pascal.expr_loop fuel node ts = some r → LowerNames node → LowerNames r.1)
  ∧ (∀ ts r, Pascal.expr fuel ts = some r → LowerNames r.1)
  ∧ (∀ ts r, Pascal.assignment_statement fuel ts = some r → LowerNames r.1)
  ∧ (∀ ts r, Pascal.statement fuel ts = some r → LowerNames r.1)
  ∧ (∀ ts r, Pascal.statement_list fuel ts = some r → ∀ c ∈ r.1, LowerNames c)
  ∧ (∀ ts r, Pascal.compound_statement fuel ts = some r → LowerNames r.1)
  ∧ (∀ ts r, Pascal.program fuel ts = some r → LowerNames r.1)
  ∧ (∀ ts r, Pascal.parse fuel ts = some r → LowerNames r.1) := by
  intro fuel
  induction fuel with
  | zero =>
    refine ⟨?_, ?_, ?_, ?_, ?_, ?_, ?_, ?_, ?_, ?_, ?_, ?_⟩ <;>
      intros <;> simp_all [Pascal.variable_, Pascal.factor, Pascal.term_loop,
        Pascal.term, Pascal.expr_loop, Pascal.expr,
        Pascal.assignment_statement, Pascal.statement, Pascal.statement_list,
        Pascal.compound_statement, Pascal.program, Pascal.parse]
  | succ fuel ih =>
    obtain ⟨ihv, ihf, ihtl, iht, ihel, ihe, iha, ihs, ihsl, ihc, ihp, ihparse⟩ := ih
    have hv : ∀ ts r, Pascal.variable_ (fuel + 1) ts = some r → LowerNames r.1 := by
      intro ts r h
      simp only [Pascal.variable_] at h
      split at h
      · rename_i value heq
        cases h
        exact LowerNames.var _ _ ⟨value, rfl⟩
      · exact absurd h (by simp)
    have hf : ∀ ts r, Pascal.factor (fuel + 1) ts = some r → LowerNames r.1 := by
      intro ts r h
      simp only [Pascal.factor] at h
      split at h
      · split at h
        · exact absurd h (by simp)
        · rename_i e ts₂ hexpr
          split at h
          · exact absurd h (by simp)
          · rename_i node hop
            cases h
            exact unary_op_lower _ _ _ hop (ihe _ _ hexpr)
      · split at h
        · exact absurd h (by simp)
        · rename_i e ts₂ hexpr
          split at h
          · exact absurd h (by simp)
          · rename_i node hop
            cases h
            exact unary_op_lower _ _ _ hop (ihe _ _ hexpr)
      · split at h
        · exact absurd h (by simp)
        · rename_i result ts₂ hexpr
          split at h
          · exact absurd h (by simp)
          · rename_i ts₃ heat
            cases h
            exact ihe (Pascal.adv ts) (result, ts₂) hexpr
      · rename_i value heq
        cases h
        exact LowerNames.num _ _
      · exact ihv _ _ h
    have htl : ∀ node ts r, Pascal.term_loop (fuel + 1) node ts = some r →
        LowerNames node → LowerNames r.1 := by
      intro node ts r h hn
      simp only [Pascal.term_loop] at h
      split at h
      · split at h
        · exact absurd h (by simp)
        · rename_i rhs ts₁ hfac
          split at h
          · exact absurd h (by simp)
          · rename_i node₁ hbin
            exact ihtl _ _ _ h (binary_op_lower _ _ _ _ hbin hn (ihf _ _ hfac))
      · split at h
        · exact absurd h (by simp)
        · rename_i rhs ts₁ hfac
          split at h
          · exact absurd h (by simp)
          · rename_i node₁ hbin
            exact ihtl _ _ _ h (binary_op_lower _ _ _ _ hbin hn (ihf _ _ hfac))
      · cases h
        exact hn
    have ht : ∀ ts r, Pascal.term (fuel + 1) ts = some r → LowerNames r.1 := by
      intro ts r h
      simp only [Pascal.term] at h
      split at h
      · exact absurd h (by simp)
      · rename_i node ts₁ hfac
        exact ihtl _ _ _ h (ihf _ _ hfac)
    have hel : ∀ node ts r, Pascal.expr_loop (fuel + 1) node ts = some r →
        LowerNames node → LowerNames r.1 := by
      intro node ts r h hn
      simp only [Pascal.expr_loop] at h
      split at h
      · split at h
        · exact absurd h (by simp)
        · rename_i rhs ts₁ hterm
          split at h
          · exact absurd h (by simp)
          · rename_i node₁ hbin
            exact ihel _ _ _ h (binary_op_lower _ _ _ _ hbin hn (iht _ _ hterm))
      · split at h
        · exact absurd h (by simp)
        · rename_i rhs ts₁ hterm
          split at h
          · exact absurd h (by simp)
          · rename_i node₁ hbin
            exact ihel _ _ _ h (binary_op_lower _ _ _ _ hbin hn (iht _ _ hterm))
      · cases h
        exact hn
    have he : ∀ ts r, Pascal.expr (fuel + 1) ts = some r → LowerNames r.1 := by
      intro ts r h
      simp only [Pascal.expr] at h
      split at h
      · exact absurd h (by simp)
      · rename_i node ts₁ hterm
        exact ihel _ _ _ h (iht _ _ hterm)
    have ha : ∀ ts r, Pascal.assignment_statement (fuel + 1) ts = some r →
        LowerNames r.1 := by
      intro ts r h
      simp only [Pascal.assignment_statement] at h
      split at h
      · exact absurd h (by simp)
      · rename_i vnode ts₁ hvar
        split at h
        · rename_i tok value
          split at h
          · exact absurd h (by simp)
          · rename_i ts₂ heat
            split at h
            · exact absurd h (by simp)
            · rename_i right ts₃ hexpr
              cases h
              have hlv := ihv _ _ hvar
              cases hlv with
              | var t n hn => exact LowerNames.assign _ _ _ hn (ihe _ _ hexpr)
        · exact absurd h (by simp)
    have hs : ∀ ts r, Pascal.statement (fuel + 1) ts = some r → LowerNames r.1 := by
      intro ts r h
      simp only [Pascal.statement] at h
      split at h
      · exact ihc _ _ h
      · exact iha _ _ h
      · exact absurd h (by simp)
    have hsl : ∀ ts r, Pascal.statement_list (fuel + 1) ts = some r →
        ∀ c ∈ r.1, LowerNames c := by
      intro ts r h
      simp only [Pascal.statement_list] at h
      split at h
      · exact ihsl _ _ h
      · cases h
        intro c hc
        exact absurd hc (by simp)
      · split at h
        · exact absurd h (by simp)
        · rename_i node ts₁ hst
          split at h
          · exact absurd h (by simp)
          · rename_i nodes ts₂ hrest
            cases h
            intro c hc
            rcases List.mem_cons.mp hc with hc | hc
            · subst hc
              exact ihs _ _ hst
            · exact ihsl _ _ hrest c hc
    have hc : ∀ ts r, Pascal.compound_statement (fuel + 1) ts = some r →
        LowerNames r.1 := by
      intro ts r h
      simp only [Pascal.compound_statement] at h
      split at h
      · exact absurd h (by simp)
      · rename_i ts₁ hbegin
        split at h
        · exact absurd h (by simp)
        · rename_i statements ts₂ hsl₁
          split at h
          · exact absurd h (by simp)
          · rename_i ts₃ hend
            cases h
            exact LowerNames.compound _ (ihsl _ _ hsl₁)
    have hp : ∀ ts r, Pascal.program (fuel + 1) ts = some r → LowerNames r.1 := by
      intro ts r h
      simp only [Pascal.program] at h
      split at h
      · exact absurd h (by simp)
      · rename_i node ts₁ hcomp
        split at h
        · exact absurd h (by simp)
        · rename_i ts₂ hdot
          cases h
          exact ihc ts (node, ts₁) hcomp
    have hpar : ∀ ts r, Pascal.parse (fuel + 1) ts = some r → LowerNames r.1 := by
      intro ts r h
      simp only [Pascal.parse] at h
      split at h
      · exact absurd h (by simp)
      · rename_i node ts₁ hprog
        split at h
        · exact absurd h (by simp)
        · rename_i ts₂ heof
          cases h
          exact ihp ts (node, ts₁) hprog
    exact ⟨hv, hf, htl, ht, hel, he, ha, hs, hsl, hc, hp, hpar⟩

/-- C8: every AST Parser::parse produces satisfies LowerNames (all its
Variable and Assign nodes carry lower-cased names, whatever the source
spelling and whatever the fuel), and concretely the program
BEGIN A := 1; b := A END. stores and reads the same key a, so the final
scope maps a to 1 and b to 1. -/
theorem spec_c8 :
    (∀ fuel ts r, Pascal.parse fuel ts = some r → LowerNames r.1)
      ∧ (Pascal.pipeline c8_program).map
          (fun r => (r.2.get ("a"), r.2.get ("b"))) = some (some 1, some 1) :=
⟨fun fuel ts r h =>
  (parser_lower_names fuel).2.2.2.2.2.2.2.2.2.2.2 ts r h, rfl⟩

/-- C9: evaluation is deterministic; interpret is a pure function of
the AST and the initial scope, so equal scopes give equal results
(value and final scope alike).  The embedding itself threads the only
state, the scope, explicitly; the source touches no other mutable
state. -/
theorem spec_c9 (a : Pascal.AST) (s₁ s₂ : Pascal.Scope) (h : s₁ = s₂) :
    Pascal.interpret a s₁ = Pascal.interpret a s₂ := by
  rw [h]

/-- Witness for C9 at a concrete AST and scope. -/
theorem spec_c9_witness :
    ([(("x"), (2 : Int))] : Pascal.Scope) = [(("x"), 2)]
      ∧ Pascal.interpret (Pascal.AST.Variable Pascal.Token.Eof ("x")) [(("x"), 2)]
        = Pascal.interpret (Pascal.AST.Variable Pascal.Token.Eof ("x")) [(("x"), 2)] :=
⟨rfl, spec_c9 (Pascal.AST.Variable Pascal.Token.Eof ("x")) [(("x"), 2)] [(("x"), 2)] rfl⟩

/-- C10: a Compound node with an empty statement list evaluates to 0
with the scope returned unchanged: the fold over the children starts
from 0 and has nothing to replace it with. -/
theorem spec_c10 (scope : Pascal.Scope) :
    Pascal.interpret (Pascal.AST.Compound []) scope = some (0, scope) :=
rfl

/-- Witness for C10 at a nonempty concrete scope. -/
theorem spec_c10_witness :
    Pascal.interpret (Pascal.AST.Compound []) [(("x"), 2)] = some (0, [(("x"), 2)]) :=
spec_c10 [(("x"), 2)]
